import Mathlib

/-!
Verification of the `go_fast_bernoulli` package (file `fast_bernoulli.go`):
a constant-time Bernoulli sampler that draws geometric skip counts instead
of one random number per trial.

The embedding models Go `float64` values as the type `F`: finite values are
exact rationals, plus the IEEE special values `+Inf`, `-Inf` and `NaN` with
IEEE comparison and arithmetic rules (NaN compares false to everything and
is absorbing in arithmetic).  `math.Log` is a platform primitive, so it is
taken as a parameter `log : F → F`; the predicate `LogSpec` records the
properties of the real logarithm that the proofs use, and `logStub` is an
executable instance used to evaluate concrete runs.

The `*rand.Rand` source is modelled as a stream `draws : ℕ → F` together
with a cursor `pos` counting how many values have been consumed; each
`r.Float64()` call in the source reads `draws pos` and advances the cursor.
-/

namespace GoFastBernoulli

/-- An idealised IEEE 754 double: an exact rational, or a special value. -/
inductive F where
  | fin (q : ℚ)
  | posInf
  | negInf
  | nan
  deriving DecidableEq, Repr

/-- IEEE `<` comparison: any comparison involving NaN is false. -/
def F.lt : F → F → Bool
  | F.nan, _ => false
  | _, F.nan => false
  | F.negInf, F.negInf => false
  | F.negInf, _ => true
  | _, F.negInf => false
  | F.posInf, _ => false
  | F.fin _, F.posInf => true
  | F.fin a, F.fin b => decide (a < b)

/-- IEEE `<=` comparison: any comparison involving NaN is false. -/
def F.le : F → F → Bool
  | F.nan, _ => false
  | _, F.nan => false
  | F.negInf, _ => true
  | _, F.negInf => false
  | _, F.posInf => true
  | F.posInf, _ => false
  | F.fin a, F.fin b => decide (a ≤ b)

/-- IEEE `==` comparison: NaN is equal to nothing, including itself. -/
def F.feq : F → F → Bool
  | F.nan, _ => false
  | _, F.nan => false
  | F.posInf, F.posInf => true
  | F.negInf, F.negInf => true
  | F.fin a, F.fin b => decide (a = b)
  | _, _ => false

/-- IEEE subtraction (finite arithmetic is exact in this model). -/
def F.sub : F → F → F
  | F.nan, _ => F.nan
  | _, F.nan => F.nan
  | F.fin a, F.fin b => F.fin (a - b)
  | F.fin _, F.posInf => F.negInf
  | F.fin _, F.negInf => F.posInf
  | F.posInf, F.fin _ => F.posInf
  | F.negInf, F.fin _ => F.negInf
  | F.posInf, F.posInf => F.nan
  | F.posInf, F.negInf => F.posInf
  | F.negInf, F.posInf => F.negInf
  | F.negInf, F.negInf => F.nan

/-- IEEE multiplication: `0 * ±Inf = NaN`, signs propagate through infinities. -/
def F.mul : F → F → F
  | F.nan, _ => F.nan
  | _, F.nan => F.nan
  | F.fin a, F.fin b => F.fin (a * b)
  | F.fin a, F.posInf => if 0 < a then F.posInf else if a < 0 then F.negInf else F.nan
  | F.fin a, F.negInf => if 0 < a then F.negInf else if a < 0 then F.posInf else F.nan
  | F.posInf, F.fin b => if 0 < b then F.posInf else if b < 0 then F.negInf else F.nan
  | F.negInf, F.fin b => if 0 < b then F.negInf else if b < 0 then F.posInf else F.nan
  | F.posInf, F.posInf => F.posInf
  | F.posInf, F.negInf => F.negInf
  | F.negInf, F.posInf => F.negInf
  | F.negInf, F.negInf => F.posInf

/-- IEEE division as used in the source (`1 / math.Log(1 - p)`); division of a
nonzero finite value by zero gives a signed infinity (the model's single zero
is treated as `+0`, matching `math.Log(1) = +0` in Go). -/
def F.div : F → F → F
  | F.nan, _ => F.nan
  | _, F.nan => F.nan
  | F.fin a, F.fin b =>
      if b = 0 then (if a = 0 then F.nan else if 0 < a then F.posInf else F.negInf)
      else F.fin (a / b)
  | F.fin _, F.posInf => F.fin 0
  | F.fin _, F.negInf => F.fin 0
  | F.posInf, F.fin b => if 0 ≤ b then F.posInf else F.negInf
  | F.negInf, F.fin b => if 0 ≤ b then F.negInf else F.posInf
  | F.posInf, _ => F.nan
  | F.negInf, _ => F.nan

/-- Model of `math.Floor`: identity on the special values, integer floor on finite ones. -/
def F.floor : F → F
  | F.fin q => F.fin (⌊q⌋ : ℚ)
  | F.posInf => F.posInf
  | F.negInf => F.negInf
  | F.nan => F.nan

/-- The constant `math.MaxUint32`. -/
def maxUint32 : ℕ := 4294967295

/-- The Go conversion `uint32(x)` from `float64`.  For an in-range argument
(`0 ≤ x ≤ MaxUint32`) the result is the integer part; out of range the Go
result is implementation-defined, modelled here by an arbitrary wrap. -/
def toUInt32 : F → ℕ
  | F.fin q => (⌊q⌋).toNat % 4294967296
  | _ => 0

/-- Properties of `math.Log` used by the proofs: `Log NaN = NaN`,
`Log` of a negative number is `NaN`, `Log 0 = -Inf`, and the logarithm of a
number strictly between 0 and 1 is finite and strictly negative. -/
structure LogSpec (log : F → F) : Prop where
  log_nan : log F.nan = F.nan
  log_neg : ∀ q : ℚ, q < 0 → log (F.fin q) = F.nan
  log_zero : log (F.fin 0) = F.negInf
  log_unit : ∀ q : ℚ, 0 < q → q < 1 → ∃ s : ℚ, s < 0 ∧ log (F.fin q) = F.fin s

/-- An executable stand-in for `math.Log`, used to evaluate concrete runs:
it has the sign behaviour `LogSpec` demands (`q - 1` has the sign of `ln q`
on `(0, ∞)`). -/
def logStub : F → F
  | F.fin q => if q < 0 then F.nan else if q = 0 then F.negInf else F.fin (q - 1)
  | F.posInf => F.posInf
  | F.negInf => F.nan
  | F.nan => F.nan

/-- The stub `logStub` satisfies the logarithm properties. -/
theorem logStub_spec : LogSpec logStub := by
  refine ⟨rfl, ?_, ?_, ?_⟩
  · intro q hq
    simp [logStub, hq]
  · simp [logStub]
  · intro q h0 h1
    refine ⟨q - 1, by linarith, ?_⟩
    simp [logStub, not_lt.mpr (le_of_lt h0), ne_of_gt h0]

/-- The sampler state: the fields of the Go struct `FastBernoulli`, with the
`*rand.Rand` field replaced by the deterministic draw stream and its cursor.
`skipCount` is the `uint32` counter; every write keeps it `≤ maxUint32`. -/
structure FastBernoulli where
  probability : F
  invLogNotProbability : F
  skipCount : ℕ
  draws : ℕ → F
  pos : ℕ

/-- The body of the `default` case of the source `resetSkipCount`, as a
function of the drawn value `x`:
`skipCount := math.Floor(math.Log(x) * f.invLogNotProbability)`,
then `uint32(skipCount)` if `skipCount <= math.MaxUint32`, else
`math.MaxUint32`. -/
def chooseSkipCount (log : F → F) (ilc x : F) : ℕ :=
  let skipCount := F.floor (F.mul (log x) ilc)
  if F.le skipCount (F.fin (maxUint32 : ℚ)) then toUInt32 skipCount
  else maxUint32

/-- Source `resetSkipCount`: `switch f.probability { case 0 => MaxUint32;
case 1 => 0; default => draw x, floor(Log(x) * invLogNotProbability),
clamped to MaxUint32 }`. -/
def resetSkipCount (log : F → F) (f : FastBernoulli) : FastBernoulli :=
  if F.feq f.probability (F.fin 0) then
    { f with skipCount := maxUint32 }
  else if F.feq f.probability (F.fin 1) then
    { f with skipCount := 0 }
  else
    { f with skipCount := chooseSkipCount log f.invLogNotProbability (f.draws f.pos)
             pos := f.pos + 1 }

/-- Source `New`: reject `probability < 0 || probability > 1` (IEEE
comparisons), otherwise build the struct with
`invLogNotProbability = 1 / Log(1 - probability)` and run the first
`resetSkipCount` before returning. -/
def New (log : F → F) (probability : F) (draws : ℕ → F) : Option FastBernoulli :=
  if F.lt probability (F.fin 0) || F.lt (F.fin 1) probability then
    none
  else
    some (resetSkipCount log
      { probability := probability
        invLogNotProbability := F.div (F.fin 1) (log (F.sub (F.fin 1) probability))
        skipCount := 0
        draws := draws
        pos := 0 })

/-- Source `Trial`: decrement a positive skip count and refuse, otherwise
re-derive the skip count and return `probability != 0`. -/
def Trial (log : F → F) (f : FastBernoulli) : Bool × FastBernoulli :=
  if 0 < f.skipCount then
    (false, { f with skipCount := f.skipCount - 1 })
  else
    (!(F.feq f.probability (F.fin 0)), resetSkipCount log f)

/-- Source `MultiTrial`: if `n < skipCount` subtract and refuse, otherwise
re-derive the skip count and return `probability != 0`. -/
def MultiTrial (log : F → F) (n : ℕ) (f : FastBernoulli) : Bool × FastBernoulli :=
  if n < f.skipCount then
    (false, { f with skipCount := f.skipCount - n })
  else
    (!(F.feq f.probability (F.fin 0)), resetSkipCount log f)

/-- Source `Probability` accessor. -/
def Probability (f : FastBernoulli) : F := f.probability

/-- Source `SkipCount` accessor. -/
def SkipCount (f : FastBernoulli) : ℕ := f.skipCount

/-- Spec-side comparator for the `MultiTrial` equivalence property: call
`Trial` exactly `n` times and return the disjunction of the results,
threading the state. -/
def trialN (log : F → F) : ℕ → FastBernoulli → Bool × FastBernoulli
  | 0, f => (false, f)
  | n + 1, f =>
      let r := Trial log f
      let rest := trialN log n r.2
      (r.1 || rest.1, rest.2)

/-- States reachable from `s` by any sequence of `Trial` and `MultiTrial`
calls. -/
inductive Reaches (log : F → F) (s : FastBernoulli) : FastBernoulli → Prop where
  | refl : Reaches log s s
  | trialStep {g : FastBernoulli} :
      Reaches log s g → Reaches log s (Trial log g).2
  | multiStep {g : FastBernoulli} (n : ℕ) :
      Reaches log s g → Reaches log s (MultiTrial log n g).2

-- Sanity checks of the embedding on concrete runs.
example : (New logStub (F.fin 0) (fun _ => F.fin (1/2))).map SkipCount
    = some maxUint32 := by rfl
example : (New logStub (F.fin 1) (fun _ => F.fin (1/2))).map SkipCount
    = some 0 := by rfl
example : (New logStub (F.fin (1/2)) (fun _ => F.fin (1/4))).map SkipCount
    = some 1 := by
  norm_num [New, resetSkipCount, chooseSkipCount, logStub, F.lt, F.sub, F.div,
    F.mul, F.floor, F.le, F.feq, toUInt32, maxUint32, SkipCount]
example : (New logStub (F.fin (11/10)) (fun _ => F.fin (1/4))) = none := by
  norm_num [New, F.lt]
example : (New logStub (F.fin (-1/10)) (fun _ => F.fin (1/4))) = none := by
  norm_num [New, F.lt]
example : (New logStub F.nan (fun _ => F.fin (1/4))).isSome = true := by rfl

/-! Basic facts: the operations never change `probability`, `draws` or
`invLogNotProbability`. -/

theorem resetSkipCount_probability (log : F → F) (f : FastBernoulli) :
    (resetSkipCount log f).probability = f.probability := by
  unfold resetSkipCount
  repeat' split
  all_goals rfl

theorem resetSkipCount_invLog (log : F → F) (f : FastBernoulli) :
    (resetSkipCount log f).invLogNotProbability = f.invLogNotProbability := by
  unfold resetSkipCount
  repeat' split
  all_goals rfl

theorem resetSkipCount_draws (log : F → F) (f : FastBernoulli) :
    (resetSkipCount log f).draws = f.draws := by
  unfold resetSkipCount
  repeat' split
  all_goals rfl

theorem Trial_probability (log : F → F) (f : FastBernoulli) :
    (Trial log f).2.probability = f.probability := by
  unfold Trial
  split
  · rfl
  · exact resetSkipCount_probability log f

theorem MultiTrial_probability (log : F → F) (n : ℕ) (f : FastBernoulli) :
    (MultiTrial log n f).2.probability = f.probability := by
  unfold MultiTrial
  split
  · rfl
  · exact resetSkipCount_probability log f

theorem Reaches_probability (log : F → F) {s f : FastBernoulli}
    (h : Reaches log s f) : f.probability = s.probability := by
  induction h with
  | refl => rfl
  | trialStep _ ih => rw [Trial_probability]; exact ih
  | multiStep n _ ih => rw [MultiTrial_probability]; exact ih

/-- If the probability is not IEEE-equal to `v`, `F.feq` says so; used to
route the `switch` in `resetSkipCount`. -/
theorem feq_eq_false {p v : F} (h : p ≠ v) (hv : v ≠ F.nan) (hp : p ≠ F.nan) :
    F.feq p v = false := by
  cases p <;> cases v <;> simp_all [F.feq]

theorem resetSkipCount_zero (log : F → F) (f : FastBernoulli)
    (h : f.probability = F.fin 0) :
    (resetSkipCount log f).skipCount = maxUint32 ∧
      (resetSkipCount log f).pos = f.pos := by
  simp [resetSkipCount, h, F.feq]

theorem resetSkipCount_one (log : F → F) (f : FastBernoulli)
    (h : f.probability = F.fin 1) :
    (resetSkipCount log f).skipCount = 0 ∧
      (resetSkipCount log f).pos = f.pos := by
  simp [resetSkipCount, h, F.feq]

theorem resetSkipCount_default (log : F → F) (f : FastBernoulli)
    (h0 : f.probability ≠ F.fin 0) (h1 : f.probability ≠ F.fin 1) :
    (resetSkipCount log f).skipCount
        = chooseSkipCount log f.invLogNotProbability (f.draws f.pos) ∧
      (resetSkipCount log f).pos = f.pos + 1 := by
  rcases hp : f.probability with q | _ | _ | _ <;>
    simp_all [resetSkipCount, F.feq]

/-- Construction succeeds exactly by running the first `resetSkipCount` on the
freshly-built struct. -/
theorem New_some (log : F → F) (p : F) (dr : ℕ → F) (s : FastBernoulli)
    (h : New log p dr = some s) :
    s = resetSkipCount log
      { probability := p
        invLogNotProbability := F.div (F.fin 1) (log (F.sub (F.fin 1) p))
        skipCount := 0
        draws := dr
        pos := 0 } := by
  unfold New at h
  split at h
  · exact absurd h (by simp)
  · simpa using h.symm

/-! Invariant for probability one: the skip count stays zero. -/

theorem Reaches_one_skipCount (log : F → F) {s f : FastBernoulli}
    (h : Reaches log s f) (hp : s.probability = F.fin 1) (hs : s.skipCount = 0) :
    f.skipCount = 0 := by
  induction h with
  | refl => exact hs
  | @trialStep g hr ih =>
      have hpg : g.probability = F.fin 1 := by rw [Reaches_probability log hr, hp]
      have h0 : ¬ 0 < g.skipCount := by simp [ih]
      simp [Trial, h0, (resetSkipCount_one log g hpg).1]
  | @multiStep g n hr ih =>
      have h0 : ¬ n < g.skipCount := by simp [ih]
      have hpg : g.probability = F.fin 1 := by rw [Reaches_probability log hr, hp]
      simp [MultiTrial, h0, (resetSkipCount_one log g hpg).1]

/-! Claim C5. -/

/-- Claim C5: in any state with a positive skip count, `Trial` returns
`false` and only decrements `skipCount` by one — in particular `pos` (and
therefore the random source) is untouched, as the full state equality
records. -/
theorem Trial_skip (log : F → F) (f : FastBernoulli) (h : 0 < f.skipCount) :
    (Trial log f).1 = false ∧
      (Trial log f).2 = { f with skipCount := f.skipCount - 1 } := by
  simp [Trial, h]

def f5 : FastBernoulli :=
  { probability := F.fin (1/2)
    invLogNotProbability := F.fin (-2)
    skipCount := 5
    draws := fun _ => F.fin (1/2)
    pos := 0 }

theorem Trial_skip_witness :
    0 < f5.skipCount ∧
      ((Trial logStub f5).1 = false ∧
        (Trial logStub f5).2 = { f5 with skipCount := f5.skipCount - 1 }) :=
  ⟨by decide, Trial_skip logStub f5 (by decide)⟩

/-! Claim C2. -/

/-- Claim C2 counterexample: the guard `probability < 0 || probability > 1`
is an IEEE comparison, so `NaN` falls through it and construction with `NaN`
succeeds instead of failing. -/
theorem New_nan_accepted :
    (New logStub F.nan (fun _ => F.fin (1/2))).isSome = true := rfl

/-- Claim C2 amended: construction fails exactly on the non-NaN values
outside `[0, 1]` — finite probabilities below `0` or above `1`, and the two
infinities; `NaN` is accepted. -/
theorem New_none_iff (log : F → F) (dr : ℕ → F) (p : F) :
    New log p dr = none ↔
      (∃ q : ℚ, p = F.fin q ∧ (q < 0 ∨ 1 < q)) ∨ p = F.posInf ∨ p = F.negInf := by
  cases p <;> simp [New, F.lt]
  rename_i q
  constructor
  · intro h
    rcases lt_or_le q 0 with h0 | h0
    · exact Or.inl h0
    · exact Or.inr (h h0)
  · rintro (h | h) h0
    · linarith
    · exact h

/-! Claim C1. -/

def dr1 : ℕ → F := fun _ => F.fin (1/2)

def s1 : FastBernoulli :=
  (New logStub (F.fin 1) dr1).getD ⟨F.fin 0, F.fin 0, 0, dr1, 0⟩

/-- Claim C1 fails on the code: on a freshly built probability-one sampler
(whose skip count is `0`), `MultiTrial 0` falls into the re-derivation
branch and returns `probability != 0`, i.e. `true` — although zero trials
can accept nothing (`trialN` on `0` is `false`). -/
theorem MultiTrial_zero_accepts :
    New logStub (F.fin 1) dr1 = some s1 ∧
      (MultiTrial logStub 0 s1).1 = true ∧ (trialN logStub 0 s1).1 = false :=
  ⟨rfl, rfl, rfl⟩

/-! Claim C4. -/

def dr4 : ℕ → F := fun _ => F.fin (1/2)

def s4 : FastBernoulli :=
  { probability := F.fin (1/2)
    invLogNotProbability := F.fin (-2)
    skipCount := 1
    draws := dr4
    pos := 1 }

/-- Claim C4 fails on the code at `n = skipCount`: with probability `1/2`
and skip count `1`, `MultiTrial 1` re-derives and returns `true`, while one
call to `Trial` (same state, same draw stream) returns `false`. -/
theorem MultiTrial_trialN_diverge :
    New logStub (F.fin (1/2)) dr4 = some s4 ∧
      (MultiTrial logStub 1 s4).1 = true ∧ (trialN logStub 1 s4).1 = false := by
  refine ⟨?_, ?_, ?_⟩
  · norm_num [New, resetSkipCount, chooseSkipCount, logStub, F.lt, F.sub,
      F.div, F.mul, F.floor, F.le, F.feq, toUInt32, maxUint32, s4, dr4]
  · norm_num [MultiTrial, s4, F.feq]
  · norm_num [trialN, Trial, s4]

/-! Claim C6. -/

/-- Claim C6: a sampler built with probability exactly `1` starts with skip
count `0`, and in every reachable state `Trial` returns `true` and leaves
the skip count at `0`. -/
theorem New_one_always_accepts (log : F → F) (dr : ℕ → F)
    (s f : FastBernoulli) (h : New log (F.fin 1) dr = some s)
    (hr : Reaches log s f) :
    s.skipCount = 0 ∧ (Trial log f).1 = true ∧ (Trial log f).2.skipCount = 0 := by
  have hs := New_some log _ dr s h
  have hp : s.probability = F.fin 1 := by rw [hs, resetSkipCount_probability]
  have hsk : s.skipCount = 0 := by
    rw [hs]; exact (resetSkipCount_one log _ rfl).1
  have hpf : f.probability = F.fin 1 := by rw [Reaches_probability log hr, hp]
  have hskf : f.skipCount = 0 := Reaches_one_skipCount log hr hp hsk
  have h0 : ¬ 0 < f.skipCount := by simp [hskf]
  refine ⟨hsk, ?_, ?_⟩
  · simp [Trial, h0, hpf, F.feq]
  · simp [Trial, h0, (resetSkipCount_one log f hpf).1]

def dr6 : ℕ → F := fun _ => F.fin (1/2)

def s6 : FastBernoulli :=
  (New logStub (F.fin 1) dr6).getD ⟨F.fin 0, F.fin 0, 0, dr6, 0⟩

theorem New_one_always_accepts_witness :
    New logStub (F.fin 1) dr6 = some s6 ∧ Reaches logStub s6 s6 ∧
      (s6.skipCount = 0 ∧ (Trial logStub s6).1 = true ∧
        (Trial logStub s6).2.skipCount = 0) :=
  ⟨rfl, Reaches.refl, New_one_always_accepts logStub dr6 s6 s6 rfl Reaches.refl⟩

/-! Claim C7. -/

/-- Claim C7: a sampler built with probability exactly `0` starts with skip
count `MaxUint32`, and in every reachable state `Trial` returns `false`. -/
theorem New_zero_never_accepts (log : F → F) (dr : ℕ → F)
    (s f : FastBernoulli) (h : New log (F.fin 0) dr = some s)
    (hr : Reaches log s f) :
    s.skipCount = maxUint32 ∧ (Trial log f).1 = false := by
  have hs := New_some log _ dr s h
  have hp : s.probability = F.fin 0 := by rw [hs, resetSkipCount_probability]
  have hpf : f.probability = F.fin 0 := by rw [Reaches_probability log hr, hp]
  refine ⟨by rw [hs]; exact (resetSkipCount_zero log _ rfl).1, ?_⟩
  unfold Trial
  split
  · rfl
  · simp [hpf, F.feq]

def dr7 : ℕ → F := fun _ => F.fin (1/2)

def s7 : FastBernoulli :=
  (New logStub (F.fin 0) dr7).getD ⟨F.fin 0, F.fin 0, 0, dr7, 0⟩

theorem New_zero_never_accepts_witness :
    New logStub (F.fin 0) dr7 = some s7 ∧ Reaches logStub s7 s7 ∧
      (s7.skipCount = maxUint32 ∧ (Trial logStub s7).1 = false) :=
  ⟨rfl, Reaches.refl, New_zero_never_accepts logStub dr7 s7 s7 rfl Reaches.refl⟩

/-! Claim C3. -/

def dr3 : ℕ → F := fun _ => F.fin (1/2)

def s3 : FastBernoulli :=
  (New logStub (F.fin 0) dr3).getD ⟨F.fin 0, F.fin 0, 0, dr3, 0⟩

/-- Claim C3 counterexample: with probability `0`, one `Trial` call on the
freshly built sampler lands in a reachable state whose skip count is
`MaxUint32 - 1`, not `MaxUint32` — the sentinel is not a reachable-state
invariant, because `Trial` decrements it like any other skip count. -/
theorem zero_sentinel_not_invariant :
    New logStub (F.fin 0) dr3 = some s3 ∧
      Reaches logStub s3 (Trial logStub s3).2 ∧
      ¬ (Trial logStub s3).2.skipCount = maxUint32 :=
  ⟨rfl, Reaches.trialStep Reaches.refl, by decide⟩

/-- Claim C3 amended: with probability `0` the skip count equals the
`MaxUint32` sentinel immediately after construction and immediately after
every skip-count re-derivation (in any reachable state); in between,
`Trial`/`MultiTrial` decrement it like any other skip count. -/
theorem zero_sentinel_after_derivation (log : F → F) (dr : ℕ → F)
    (s f : FastBernoulli) (h : New log (F.fin 0) dr = some s)
    (hr : Reaches log s f) :
    s.skipCount = maxUint32 ∧
      (resetSkipCount log f).skipCount = maxUint32 := by
  have hs := New_some log _ dr s h
  have hp : s.probability = F.fin 0 := by rw [hs, resetSkipCount_probability]
  have hpf : f.probability = F.fin 0 := by rw [Reaches_probability log hr, hp]
  exact ⟨by rw [hs]; exact (resetSkipCount_zero log _ rfl).1,
    (resetSkipCount_zero log f hpf).1⟩

theorem zero_sentinel_after_derivation_witness :
    New logStub (F.fin 0) dr3 = some s3 ∧ Reaches logStub s3 s3 ∧
      (s3.skipCount = maxUint32 ∧
        (resetSkipCount logStub s3).skipCount = maxUint32) :=
  ⟨rfl, Reaches.refl,
    zero_sentinel_after_derivation logStub dr3 s3 s3 rfl Reaches.refl⟩

/-! Claim C8. -/

/-- Claim C8: every successful construction stores
`invLogNotProbability = 1 / Log(1 - probability)` and runs the first
skip-count derivation before returning: for probability exactly `0` or `1`
no random draw is consumed (`pos` stays `0`), otherwise exactly one draw —
the stream's value at index `0` — is consumed and turned into the first
skip count. -/
theorem New_first_derivation (log : F → F) (p : F) (dr : ℕ → F)
    (s : FastBernoulli) (h : New log p dr = some s) :
    s.invLogNotProbability = F.div (F.fin 1) (log (F.sub (F.fin 1) p)) ∧
    ((p = F.fin 0 ∨ p = F.fin 1) → s.pos = 0) ∧
    (p ≠ F.fin 0 → p ≠ F.fin 1 →
      s.pos = 1 ∧
      s.skipCount
        = chooseSkipCount log (F.div (F.fin 1) (log (F.sub (F.fin 1) p)))
            (dr 0)) := by
  have hs := New_some log p dr s h
  refine ⟨by rw [hs, resetSkipCount_invLog], ?_, ?_⟩
  · rintro (hp | hp) <;> subst hp <;> rw [hs]
    · exact (resetSkipCount_zero log _ rfl).2
    · exact (resetSkipCount_one log _ rfl).2
  · intro h0 h1
    rw [hs]
    have hd := resetSkipCount_default log
      { probability := p
        invLogNotProbability := F.div (F.fin 1) (log (F.sub (F.fin 1) p))
        skipCount := 0
        draws := dr
        pos := 0 } h0 h1
    exact ⟨hd.2, hd.1⟩

def dr8 : ℕ → F := fun _ => F.fin (1/2)

def s8 : FastBernoulli :=
  { probability := F.fin (1/2)
    invLogNotProbability := F.fin (-2)
    skipCount := 1
    draws := dr8
    pos := 1 }

theorem New_first_derivation_witness :
    New logStub (F.fin (1/2)) dr8 = some s8 ∧
      (s8.invLogNotProbability
          = F.div (F.fin 1) (logStub (F.sub (F.fin 1) (F.fin (1/2)))) ∧
        ((F.fin (1/2) = F.fin 0 ∨ F.fin (1/2) = F.fin 1) → s8.pos = 0) ∧
        (F.fin (1/2) ≠ F.fin 0 → F.fin (1/2) ≠ F.fin 1 →
          s8.pos = 1 ∧
          s8.skipCount
            = chooseSkipCount logStub
                (F.div (F.fin 1) (logStub (F.sub (F.fin 1) (F.fin (1/2)))))
                (dr8 0))) := by
  have h : New logStub (F.fin (1/2)) dr8 = some s8 := by
    norm_num [New, resetSkipCount, chooseSkipCount, logStub, F.lt, F.sub,
      F.div, F.mul, F.floor, F.le, F.feq, toUInt32, maxUint32, s8, dr8]
  exact ⟨h, New_first_derivation logStub (F.fin (1/2)) dr8 s8 h⟩

/-! Claim C9. -/

/-- Claim C9: for probability strictly between `0` and `1`, a skip-count
derivation consumes exactly one draw `x` and computes
`raw = floor(Log x * invLogNotProbability)`; either `raw` is a nonnegative
integer at most `MaxUint32` and the new skip count is exactly that integer
(the cast does not wrap), or the guard `raw <= MaxUint32` fails and the
skip count is clamped to `MaxUint32`. -/
theorem resetSkipCount_formula (log : F → F) (hlog : LogSpec log)
    (f : FastBernoulli) (q : ℚ) (hp : f.probability = F.fin q)
    (h0 : 0 < q) (h1 : q < 1)
    (hilc : f.invLogNotProbability
      = F.div (F.fin 1) (log (F.sub (F.fin 1) (F.fin q))))
    (r : ℚ) (hx : f.draws f.pos = F.fin r) (hr0 : 0 ≤ r) (hr1 : r < 1) :
    (resetSkipCount log f).pos = f.pos + 1 ∧
    (resetSkipCount log f).skipCount
        = chooseSkipCount log f.invLogNotProbability (f.draws f.pos) ∧
    ((∃ m : ℕ, m ≤ maxUint32 ∧
        F.floor (F.mul (log (F.fin r)) f.invLogNotProbability) = F.fin (m : ℚ) ∧
        (resetSkipCount log f).skipCount = m) ∨
      (F.le (F.floor (F.mul (log (F.fin r)) f.invLogNotProbability))
          (F.fin (maxUint32 : ℚ)) = false ∧
        (resetSkipCount log f).skipCount = maxUint32)) := by
  have hne0 : f.probability ≠ F.fin 0 := by
    rw [hp]; simp; exact ne_of_gt h0
  have hne1 : f.probability ≠ F.fin 1 := by
    rw [hp]; simp; exact ne_of_lt h1
  have hd := resetSkipCount_default log f hne0 hne1
  refine ⟨hd.2, hd.1, ?_⟩
  obtain ⟨sl, hsl, hlsl⟩ := hlog.log_unit (1 - q) (by linarith) (by linarith)
  have hilc' : f.invLogNotProbability = F.fin sl⁻¹ := by
    rw [hilc]
    have hsub : F.sub (F.fin 1) (F.fin q) = F.fin (1 - q) := rfl
    rw [hsub, hlsl]
    simp [F.div, hsl.ne, one_div]
  have hinv_neg : sl⁻¹ < 0 := inv_lt_zero.mpr hsl
  rcases eq_or_lt_of_le hr0 with hr00 | hrpos
  · have hlr : log (F.fin r) = F.negInf := by rw [← hr00]; exact hlog.log_zero
    have hmul : F.mul (log (F.fin r)) f.invLogNotProbability = F.posInf := by
      rw [hlr, hilc']
      show (if 0 < sl⁻¹ then F.negInf else if sl⁻¹ < 0 then F.posInf
        else F.nan) = F.posInf
      rw [if_neg (not_lt.mpr hinv_neg.le), if_pos hinv_neg]
    refine Or.inr ⟨by rw [hmul]; rfl, ?_⟩
    rw [hd.1, hx]
    simp [chooseSkipCount, hmul, F.floor, F.le]
  · obtain ⟨t, ht, hlt⟩ := hlog.log_unit r hrpos hr1
    have hmul : F.mul (log (F.fin r)) f.invLogNotProbability
        = F.fin (t * sl⁻¹) := by rw [hlt, hilc']; rfl
    have hprod_pos : 0 < t * sl⁻¹ := mul_pos_of_neg_of_neg ht hinv_neg
    have hw0 : 0 ≤ ⌊t * sl⁻¹⌋ := Int.floor_nonneg.mpr hprod_pos.le
    have hraw : F.floor (F.mul (log (F.fin r)) f.invLogNotProbability)
        = F.fin ((⌊t * sl⁻¹⌋ : ℤ) : ℚ) := by rw [hmul]; rfl
    by_cases hle : ((⌊t * sl⁻¹⌋ : ℤ) : ℚ) ≤ ((maxUint32 : ℕ) : ℚ)
    · refine Or.inl ⟨(⌊t * sl⁻¹⌋).toNat, ?_, ?_, ?_⟩
      · have hwle : ⌊t * sl⁻¹⌋ ≤ ((maxUint32 : ℕ) : ℤ) := by
          exact_mod_cast hle
        simp only [maxUint32] at hwle ⊢
        omega
      · rw [hraw]
        congr 1
        exact_mod_cast (Int.toNat_of_nonneg hw0).symm
      · rw [hd.1, hx]
        have hguard : F.le (F.fin ((⌊t * sl⁻¹⌋ : ℤ) : ℚ))
            (F.fin ((maxUint32 : ℕ) : ℚ)) = true := by simp [F.le, hle]
        have hwle : ⌊t * sl⁻¹⌋ ≤ ((maxUint32 : ℕ) : ℤ) := by
          exact_mod_cast hle
        simp only [chooseSkipCount, hraw, hguard, if_true, toUInt32]
        rw [Int.floor_intCast]
        apply Nat.mod_eq_of_lt
        simp only [maxUint32] at hwle
        omega
    · refine Or.inr ⟨by rw [hraw]; simp [F.le, hle], ?_⟩
      rw [hd.1, hx]
      simp [chooseSkipCount, hraw, F.le, hle]

def f9 : FastBernoulli :=
  { probability := F.fin (1/2)
    invLogNotProbability
      := F.div (F.fin 1) (logStub (F.sub (F.fin 1) (F.fin (1/2))))
    skipCount := 0
    draws := fun _ => F.fin (1/2)
    pos := 0 }

theorem resetSkipCount_formula_witness :
    LogSpec logStub ∧ f9.probability = F.fin (1/2) ∧
      (0:ℚ) < 1/2 ∧ (1/2:ℚ) < 1 ∧
      f9.invLogNotProbability
        = F.div (F.fin 1) (logStub (F.sub (F.fin 1) (F.fin (1/2)))) ∧
      f9.draws f9.pos = F.fin (1/2) ∧ (0:ℚ) ≤ 1/2 ∧
      ((resetSkipCount logStub f9).pos = f9.pos + 1 ∧
        (resetSkipCount logStub f9).skipCount
            = chooseSkipCount logStub f9.invLogNotProbability
                (f9.draws f9.pos) ∧
        ((∃ m : ℕ, m ≤ maxUint32 ∧
            F.floor (F.mul (logStub (F.fin (1/2))) f9.invLogNotProbability)
              = F.fin (m : ℚ) ∧
            (resetSkipCount logStub f9).skipCount = m) ∨
          (F.le (F.floor (F.mul (logStub (F.fin (1/2)))
                f9.invLogNotProbability)) (F.fin (maxUint32 : ℚ)) = false ∧
            (resetSkipCount logStub f9).skipCount = maxUint32))) := by
  refine ⟨logStub_spec, rfl, by norm_num, by norm_num, rfl, rfl, by norm_num, ?_⟩
  exact resetSkipCount_formula logStub logStub_spec f9 (1/2) rfl
    (by norm_num) (by norm_num) rfl (1/2) rfl (by norm_num) (by norm_num)

/-! Claim C10. -/

/-- Claim C10: the float-to-uint32 cast in the derivation only ever
executes on values in `[0, MaxUint32]`: whenever the guard
`raw <= MaxUint32` passes, `raw` is a nonnegative integer in range; when
the draw is exactly `0` (`Log 0 = -Inf`, product `+Inf`) the guard fails
and the skip count is the `MaxUint32` sentinel; and when the product is
`NaN` (as with the NaN `invLogNotProbability` a NaN probability produces)
the guard also fails and the sentinel is used. -/
theorem chooseSkipCount_cast_safe (log : F → F) (hlog : LogSpec log)
    (ilc : F) (q : ℚ) (h0 : 0 < q) (h1 : q < 1)
    (hilc : ilc = F.div (F.fin 1) (log (F.sub (F.fin 1) (F.fin q))))
    (r : ℚ) (hr0 : 0 ≤ r) (hr1 : r < 1) :
    (F.le (F.floor (F.mul (log (F.fin r)) ilc)) (F.fin (maxUint32 : ℚ)) = true →
      ∃ m : ℕ, m ≤ maxUint32 ∧
        F.floor (F.mul (log (F.fin r)) ilc) = F.fin (m : ℚ)) ∧
    (r = 0 → chooseSkipCount log ilc (F.fin r) = maxUint32) ∧
    (∀ x : F, chooseSkipCount log F.nan x = maxUint32) := by
  obtain ⟨sl, hsl, hlsl⟩ := hlog.log_unit (1 - q) (by linarith) (by linarith)
  have hilc' : ilc = F.fin sl⁻¹ := by
    rw [hilc]
    have hsub : F.sub (F.fin 1) (F.fin q) = F.fin (1 - q) := rfl
    rw [hsub, hlsl]
    simp [F.div, hsl.ne, one_div]
  have hinv_neg : sl⁻¹ < 0 := inv_lt_zero.mpr hsl
  refine ⟨?_, ?_, ?_⟩
  · intro hguard
    rcases eq_or_lt_of_le hr0 with hr00 | hrpos
    · exfalso
      have hlr : log (F.fin r) = F.negInf := by rw [← hr00]; exact hlog.log_zero
      have hmul : F.mul (log (F.fin r)) ilc = F.posInf := by
        rw [hlr, hilc']
        show (if 0 < sl⁻¹ then F.negInf else if sl⁻¹ < 0 then F.posInf
          else F.nan) = F.posInf
        rw [if_neg (not_lt.mpr hinv_neg.le), if_pos hinv_neg]
      rw [hmul] at hguard
      simp [F.floor, F.le] at hguard
    · obtain ⟨t, ht, hlt⟩ := hlog.log_unit r hrpos hr1
      have hmul : F.mul (log (F.fin r)) ilc = F.fin (t * sl⁻¹) := by
        rw [hlt, hilc']; rfl
      have hprod_pos : 0 < t * sl⁻¹ := mul_pos_of_neg_of_neg ht hinv_neg
      have hw0 : 0 ≤ ⌊t * sl⁻¹⌋ := Int.floor_nonneg.mpr hprod_pos.le
      have hraw : F.floor (F.mul (log (F.fin r)) ilc)
          = F.fin ((⌊t * sl⁻¹⌋ : ℤ) : ℚ) := by rw [hmul]; rfl
      rw [hraw] at hguard
      simp [F.le] at hguard
      refine ⟨(⌊t * sl⁻¹⌋).toNat, ?_, ?_⟩
      · have hwle : ⌊t * sl⁻¹⌋ ≤ ((maxUint32 : ℕ) : ℤ) := by
          exact_mod_cast hguard
        simp only [maxUint32] at hwle ⊢
        omega
      · rw [hraw]
        congr 1
        exact_mod_cast (Int.toNat_of_nonneg hw0).symm
  · intro hr00
    have hlr : log (F.fin r) = F.negInf := by rw [hr00]; exact hlog.log_zero
    have hmul : F.mul (log (F.fin r)) ilc = F.posInf := by
      rw [hlr, hilc']
      show (if 0 < sl⁻¹ then F.negInf else if sl⁻¹ < 0 then F.posInf
        else F.nan) = F.posInf
      rw [if_neg (not_lt.mpr hinv_neg.le), if_pos hinv_neg]
    simp [chooseSkipCount, hmul, F.floor, F.le]
  · intro x
    cases hlx : log x <;> simp [chooseSkipCount, F.mul, F.floor, F.le, hlx]

def ilc10 : F := F.div (F.fin 1) (logStub (F.sub (F.fin 1) (F.fin (1/2))))

theorem chooseSkipCount_cast_safe_witness :
    (0:ℚ) < 1/2 ∧ (1/2:ℚ) < 1 ∧ (0:ℚ) ≤ 1/2 ∧
      ((F.le (F.floor (F.mul (logStub (F.fin (1/2))) ilc10))
            (F.fin (maxUint32 : ℚ)) = true →
          ∃ m : ℕ, m ≤ maxUint32 ∧
            F.floor (F.mul (logStub (F.fin (1/2))) ilc10) = F.fin (m : ℚ)) ∧
        ((1/2:ℚ) = 0 → chooseSkipCount logStub ilc10 (F.fin (1/2)) = maxUint32) ∧
        (∀ x : F, chooseSkipCount logStub F.nan x = maxUint32)) := by
  refine ⟨by norm_num, by norm_num, by norm_num, ?_⟩
  exact chooseSkipCount_cast_safe logStub logStub_spec ilc10 (1/2)
    (by norm_num) (by norm_num) rfl (1/2) (by norm_num) (by norm_num)

end GoFastBernoulli
